import Mathlib

/-
Shallow embedding of the getoptxx command line argument parser
(single header src/getoptxx.h).  The embedding follows the source:
option construction (option::option, lines 232-244), the scan loop of
arguments::parse (lines 297-360), the required-option validation
(lines 346-356), the trailing positional append (line 358), and the
result accessors help, exists, operator[] and unparsed (lines 147-180).

Tokens and names are modelled as Lean strings; the argv vector minus
the program name is a list of strings.  The parsed map is an
association list mirroring the observable behaviour of the
unordered_map used by the code: insert never overwrites an existing
key, find returns the entry for a key, count counts entries.

Two places of the source have no defined behaviour and are modelled
explicitly:
- when the specifier string given to the option constructor is empty,
  the constructor reads the out-of-bounds byte name[1]; mkNames
  returns Option.none there;
- when the token list contains no "--" token, the trailing append of
  line 358 inserts from the iterator range starting at argv+argc+1 and
  ending at argv+argc, whose first iterator lies past the last; this
  invalid range is undefined behaviour and parse returns PResult.ub.
-/

set_option maxRecDepth 8000

namespace Getoptxx

/-- The argument flags of an option: none, optional or required value. -/
inductive AFlag
  | anone
  | aoptional
  | arequired
deriving DecidableEq, Repr

/-- One command line option: short name, long name, argument flags and
the required-on-command-line flag (option_flags::required). -/
structure Opt where
  short : String
  long : String
  aflags : AFlag
  oflags : Bool
deriving DecidableEq, Repr

/-- The arguments result: the help flag, the parsed map and the
unparsed (positional) list, mirroring the fields m_help, m_parsed and
m_unparsed of class arguments. -/
structure Args where
  help : Bool
  parsed : List (String × String)
  unparsed : List String
deriving DecidableEq, Repr

/-- The empty string, written once so that string literals never
directly follow an identifier. -/
def emptyS : String := ""

/-- A single quote character as a string, used to build the error
messages of the source without writing the character literally. -/
def sq : String := String.mk [Char.ofNat 39]

/-- First character of a token, if any; models reading byte 0 of a C
string, where an empty token yields the NUL terminator. -/
def firstChar (t : String) : Option Char := t.data.head?

/-- Candidate name extraction of line 313: strip two leading dashes
when byte 1 is a dash, else strip one. -/
def stripDashes (t : String) : String :=
  if t.data.get? 1 = some '-' then t.drop 2 else t.drop 1

/-- The match predicate of the find_if on line 317: the candidate
equals the short or the long name of the option. -/
def optMatches (s : String) (o : Opt) : Bool := s == o.short || s == o.long

/-- unordered_map::find on the parsed map: first entry with the key. -/
def mapFind (m : List (String × String)) (k : String) : Option String :=
  (m.find? (fun p => p.1 == k)).map Prod.snd

/-- unordered_map::count on the parsed map. -/
def countKey (m : List (String × String)) (k : String) : Nat :=
  (m.filter (fun p => p.1 == k)).length

/-- unordered_map::insert: a no-op when the key is already present. -/
def mapInsert (m : List (String × String)) (k v : String) : List (String × String) :=
  if (mapFind m k).isSome then m else m ++ [(k, v)]

/-- Lines 338-343: record the resolved value under the short and the
long name, each only when that name is nonempty. -/
def insertBoth (st : Args) (o : Opt) (v : String) : Args :=
  let p1 := if o.short = emptyS then st.parsed else mapInsert st.parsed o.short v
  let p2 := if o.long = emptyS then p1 else mapInsert p1 o.long v
  ⟨st.help, p2, st.unparsed⟩

/-- The unknown-option message of line 320. -/
def unknownMsg (s : String) : String := "unknown option " ++ sq ++ s ++ sq

/-- The requires-a-value message of line 331. -/
def requiresMsg (s : String) : String := "option " ++ sq ++ s ++ sq ++ " requires a value"

/-- The required-option message of lines 351-353. -/
def requiredMsg (s : String) : String := "option " ++ sq ++ s ++ sq ++ " required"

/-- What one iteration of the scan loop does at position i. -/
inductive StepRes
  | skip
  | pos (t : String)
  | help
  | fail (msg : String)
  | record1 (o : Opt)
  | record2 (o : Opt) (v : String)
deriving DecidableEq, Repr

/-- Outcome of the scan loop: finished normally, returned early on a
help token (line 315), or threw an exception. -/
inductive ScanRes
  | done (st : Args)
  | helpExit (st : Args)
  | err (msg : String)
deriving DecidableEq, Repr

/-- One iteration of the scan loop of arguments::parse
(lines 303-343), at token index i with boundary index ae.  The test
of line 304 compares the argument pointer itself with null, not the
string with the empty string, and so never fires for the actual argv
contents; it therefore has no counterpart here, and an empty token,
whose first byte is the NUL terminator rather than a dash, is pushed
onto the positional list by line 307 like any other non-dash token.
A bare dash is skipped; a longer dash token is stripped into a
candidate; the help candidate ends the scan; otherwise the matched
option decides value consumption from its argument flags.  The
lookahead token is consumed when it lies strictly before the boundary
and its first byte is not a dash; an empty lookahead token has NUL as
its first byte and is therefore consumed. -/
def scanStep (opts : List Opt) (toks : List String) (ae i : Nat) : StepRes :=
  let t := toks.getD i emptyS
  if firstChar t ≠ some '-' then StepRes.pos t
  else if t.length = 1 then StepRes.skip
  else
    if stripDashes t = "h" ∨ stripDashes t = "help" then StepRes.help
    else
      match opts.find? (optMatches (stripDashes t)) with
      | Option.none => StepRes.fail (unknownMsg (stripDashes t))
      | some o =>
        if o.aflags = AFlag.arequired ∨ o.aflags = AFlag.aoptional then
          if i + 1 < ae ∧ firstChar (toks.getD (i + 1) emptyS) ≠ some '-' then
            StepRes.record2 o (toks.getD (i + 1) emptyS)
          else if o.aflags = AFlag.arequired then
            StepRes.fail (requiresMsg (stripDashes t))
          else StepRes.record1 o
        else StepRes.record1 o

/-- The scan loop, fuelled: each iteration consumes one unit of fuel
and advances the index by one, or by two when a value is consumed.
parse supplies fuel ae, which is enough because every iteration
advances the index by at least one. -/
def scanAux (opts : List Opt) (toks : List String) (ae : Nat) :
    Nat → Nat → Args → ScanRes
  | 0, _, st => ScanRes.done st
  | Nat.succ f, i, st =>
    if i < ae then
      match scanStep opts toks ae i with
      | StepRes.skip => scanAux opts toks ae f (i + 1) st
      | StepRes.pos t => scanAux opts toks ae f (i + 1) ⟨st.help, st.parsed, st.unparsed ++ [t]⟩
      | StepRes.help => ScanRes.helpExit ⟨true, st.parsed, st.unparsed⟩
      | StepRes.fail m => ScanRes.err m
      | StepRes.record1 o => scanAux opts toks ae f (i + 1) (insertBoth st o emptyS)
      | StepRes.record2 o v => scanAux opts toks ae f (i + 2) (insertBoth st o v)
    else ScanRes.done st

/-- Index of the first "--" token (the find_if of lines 300-301);
equals the list length when there is none. -/
def aeIdx (toks : List String) : Nat := toks.findIdx (fun t => t == "--")

/-- The predicate of the required-option validation (lines 346-356):
the option carries the required flag and one of its nonempty names is
missing from the parsed map. -/
def requiredMissing (m : List (String × String)) (o : Opt) : Bool :=
  o.oflags &&
    ((o.short != emptyS && countKey m o.short == 0) ||
     (o.long != emptyS && countKey m o.long == 0))

/-- The required-option validation: the first required option with a
missing name yields the error message, prefering the long name. -/
def requiredCheck (opts : List Opt) (m : List (String × String)) : Option String :=
  match opts.find? (requiredMissing m) with
  | some o => some (requiredMsg (if o.long ≠ emptyS then o.long else o.short))
  | Option.none => Option.none

/-- Initial arguments object: help false, empty maps. -/
def initArgs : Args := ⟨false, [], []⟩

/-- Result of arguments::parse: a result value, a thrown runtime_error
message, or undefined behaviour. -/
inductive PResult
  | ok (a : Args)
  | perr (msg : String)
  | ub
deriving DecidableEq, Repr

/-- arguments::parse (lines 297-360) over the token list argv+1..argv+argc.
The scan runs up to the boundary; a help token returns the current
result at once (line 315), skipping both the required-option
validation and the trailing append; otherwise the required options are
validated and then line 358 appends the tokens of the iterator range
starting one past the boundary.  When no "--" token exists that range
starts past the end iterator and is invalid: undefined behaviour,
modelled as PResult.ub. -/
def parse (opts : List Opt) (toks : List String) : PResult :=
  let ae := aeIdx toks
  match scanAux opts toks ae ae 0 initArgs with
  | ScanRes.helpExit st => PResult.ok st
  | ScanRes.err m => PResult.perr m
  | ScanRes.done st =>
    match requiredCheck opts st.parsed with
    | some m => PResult.perr m
    | Option.none =>
      if ae + 1 ≤ toks.length then
        PResult.ok ⟨st.help, st.parsed, st.unparsed ++ toks.drop (ae + 1)⟩
      else PResult.ub

/-- arguments::exists (line 154): count of the key, converted to bool. -/
def argsExists (a : Args) (k : String) : Bool := countKey a.parsed k != 0

/-- arguments::operator[] (lines 162-174): m_parsed.find(key)->second.
The find is returned as an Option; Option.none models the case where
find returns the end iterator and the arrow dereferences it, which is
undefined behaviour and in particular raises no error condition. -/
def argsValue (a : Args) (k : String) : Option String := mapFind a.parsed k

/-- A strict value lookup written from the words of the specification,
for comparison with argsValue: it fails with a no-value condition
naming the key when the key is absent.  The source code has no such
code path. -/
def valueStrictSpec (a : Args) (k : String) : Except String String :=
  match mapFind a.parsed k with
  | some v => Except.ok v
  | Option.none => Except.error ("no value for " ++ sq ++ k ++ sq)

/-- option::option (lines 232-244): derive the short and long names
from the specifier string.  A one-character specifier is a short name;
otherwise byte 1 decides: a separator splits the specifier into the
first character and the remainder from byte 2, anything else makes the
whole specifier the long name.  When the specifier is empty the read
of name[1] is out of bounds: undefined behaviour, modelled as
Option.none. -/
def mkNames (name : String) : Option (String × String) :=
  if name.length = 1 then some (name, emptyS)
  else
    match name.data.get? 1 with
    | Option.none => Option.none
    | some c => if c = ',' then some (name.take 1, name.drop 2) else some (emptyS, name)

/-- Build an option value from a specifier and the two flags, as the
option constructor does. -/
def mkOption (name : String) (af : AFlag) (fl : Bool) : Option Opt :=
  (mkNames name).map (fun p => ⟨p.1, p.2, af, fl⟩)

/-- A token that triggers the help path of line 314 when scanned: it
is nonempty, starts with a dash, is longer than one character, and its
dash-stripped candidate is h or help. -/
def isHelpToken (t : String) : Bool :=
  if t = emptyS then false
  else if firstChar t ≠ some '-' then false
  else if t.length = 1 then false
  else decide (stripDashes t = "h" ∨ stripDashes t = "help")

/-- The candidate name the scan would extract at position i, when the
token there is nonempty, starts with a dash and is not the bare dash. -/
def candidateAt (toks : List String) (i : Nat) : Option String :=
  let t := toks.getD i emptyS
  if t ≠ emptyS ∧ firstChar t = some '-' ∧ t.length ≠ 1 then some (stripDashes t)
  else Option.none

/-- Two options share a name when some nonempty name of the first
equals a name of the second. -/
def sharesName (o1 o2 : Opt) : Bool :=
  decide ((o1.short ≠ emptyS ∧ (o1.short = o2.short ∨ o1.short = o2.long)) ∨
          (o1.long ≠ emptyS ∧ (o1.long = o2.short ∨ o1.long = o2.long)))

/-- No two distinct entries of the option list share a nonempty name. -/
def namesDisjoint : List Opt → Bool
  | [] => true
  | o :: rest => rest.all (fun o2 => !(sharesName o o2)) && namesDisjoint rest

/-- Invariant of the parsed map: every option of the list that has
both names maps them to the same stored value, or to none. -/
def KeysAligned (opts : List Opt) (m : List (String × String)) : Prop :=
  ∀ o, o ∈ opts → o.short ≠ emptyS → o.long ≠ emptyS →
    mapFind m o.short = mapFind m o.long

/-- Appending a fresh pair does not change the lookup of other keys. -/
theorem mapFind_append_single (m : List (String × String)) (k v k2 : String)
    (h : k2 ≠ k) : mapFind (m ++ [(k, v)]) k2 = mapFind m k2 := by
  have hk : (k == k2) = false := beq_eq_false_iff_ne.mpr (fun he => h he.symm)
  unfold mapFind
  induction m with
  | nil => simp [List.find?_cons, List.find?_nil, hk]
  | cons a m ih =>
    rw [List.cons_append]
    by_cases hp : (a.1 == k2) = true
    · simp only [List.find?_cons, hp]
    · have hp2 : (a.1 == k2) = false := Bool.eq_false_iff.mpr hp
      simp only [List.find?_cons, hp2]
      exact ih

/-- Appending a pair whose key is absent makes the lookup find it. -/
theorem mapFind_append_single_self (m : List (String × String)) (k v : String)
    (h : mapFind m k = Option.none) : mapFind (m ++ [(k, v)]) k = some v := by
  unfold mapFind at h ⊢
  induction m with
  | nil => simp [List.find?_cons, List.find?_nil]
  | cons a m ih =>
    by_cases hp : (a.1 == k) = true
    · simp only [List.find?_cons, hp] at h
      exact absurd h (by simp)
    · have hp2 : (a.1 == k) = false := Bool.eq_false_iff.mpr hp
      simp only [List.find?_cons, hp2] at h
      rw [List.cons_append]
      simp only [List.find?_cons, hp2]
      exact ih h

/-- mapInsert leaves the lookup of every other key unchanged. -/
theorem mapFind_insert_ne (m : List (String × String)) (k v k2 : String)
    (h : k2 ≠ k) : mapFind (mapInsert m k v) k2 = mapFind m k2 := by
  unfold mapInsert
  split
  · rfl
  · exact mapFind_append_single m k v k2 h

/-- After mapInsert the key maps to its old value when present, else
to the inserted value: insert never overwrites. -/
theorem mapFind_insert_self (m : List (String × String)) (k v : String) :
    mapFind (mapInsert m k v) k = some ((mapFind m k).getD v) := by
  unfold mapInsert
  split
  case isTrue h =>
    obtain ⟨w, hw⟩ := Option.isSome_iff_exists.mp h
    rw [hw]
    rfl
  case isFalse h =>
    have hnone : mapFind m k = Option.none := Option.not_isSome_iff_eq_none.mp h
    rw [hnone, mapFind_append_single_self m k v hnone]
    rfl

/-- The count of a key is nonzero exactly when find locates it. -/
theorem countKey_ne_zero_iff (m : List (String × String)) (k : String) :
    countKey m k ≠ 0 ↔ (mapFind m k).isSome = true := by
  unfold countKey mapFind
  induction m with
  | nil => simp [List.find?_nil]
  | cons a m ih =>
    by_cases hp : (a.1 == k) = true
    · simp [List.filter_cons, List.find?_cons, hp]
    · have hp2 : (a.1 == k) = false := Bool.eq_false_iff.mpr hp
      simp only [List.filter_cons, hp2, List.find?_cons, Bool.false_eq_true, if_false]
      exact ih

/-- A token whose dash-stripped candidate is h or help makes the scan
take the help branch. -/
theorem scanStep_of_isHelp (opts : List Opt) (toks : List String) (ae i : Nat)
    (h : isHelpToken (toks.getD i emptyS) = true) :
    scanStep opts toks ae i = StepRes.help := by
  unfold isHelpToken at h
  simp only [scanStep]
  split at h
  next h1 => exact absurd h Bool.false_ne_true
  next h1 =>
    split at h
    next h2 => exact absurd h Bool.false_ne_true
    next h2 =>
      split at h
      next h3 => exact absurd h Bool.false_ne_true
      next h3 => rw [if_neg h2, if_neg h3, if_pos (of_decide_eq_true h)]

/-- Conversely, the help branch is taken only on a help token. -/
theorem scanStep_help_isHelp (opts : List Opt) (toks : List String) (ae i : Nat)
    (h : scanStep opts toks ae i = StepRes.help) :
    isHelpToken (toks.getD i emptyS) = true := by
  simp only [scanStep] at h
  unfold isHelpToken
  split at h
  next => exact StepRes.noConfusion h
  next h2 =>
    have h2e : firstChar (toks.getD i emptyS) = some '-' := not_not.mp h2
    have h1 : ¬ (toks.getD i emptyS = emptyS) := by
      intro he
      rw [he] at h2e
      exact Option.noConfusion h2e
    rw [if_neg h1, if_neg h2]
    split at h
    next => exact StepRes.noConfusion h
    next h3 =>
      rw [if_neg h3]
      split at h
      next h4 => exact decide_eq_true h4
      next h4 =>
        split at h
        next => exact StepRes.noConfusion h
        next o2 heq =>
          split at h
          next h5 =>
            split at h
            next h6 => exact StepRes.noConfusion h
            next h6 =>
              split at h
              next h7 => exact StepRes.noConfusion h
              next h7 => exact StepRes.noConfusion h
          next h5 => exact StepRes.noConfusion h

/-- A scan step other than the help branch never sits on a help token. -/
theorem isHelp_false_of_step_ne (opts : List Opt) (toks : List String) (ae i : Nat)
    (r : StepRes) (hstep : scanStep opts toks ae i = r) (hr : r ≠ StepRes.help) :
    isHelpToken (toks.getD i emptyS) = false := by
  cases hht : isHelpToken (toks.getD i emptyS)
  · rfl
  · exact absurd (hstep.symm.trans (scanStep_of_isHelp opts toks ae i hht)) hr

/-- A token without a leading dash is not a help token. -/
theorem isHelp_false_of_dashless (t : String) (h : firstChar t ≠ some '-') :
    isHelpToken t = false := by
  unfold isHelpToken
  by_cases h1 : t = emptyS
  · rw [if_pos h1]
  · rw [if_neg h1, if_pos h]

/-- Inversion of the value-consuming step: the matched option was
found, the consumed value is the lookahead token, which lies before
the boundary and has no leading dash. -/
theorem scanStep_record2_inv (opts : List Opt) (toks : List String) (ae i : Nat)
    (o : Opt) (v : String) (h : scanStep opts toks ae i = StepRes.record2 o v) :
    opts.find? (optMatches (stripDashes (toks.getD i emptyS))) = some o ∧
    v = toks.getD (i + 1) emptyS ∧ i + 1 < ae ∧
    firstChar (toks.getD (i + 1) emptyS) ≠ some '-' := by
  simp only [scanStep] at h
  split at h
  next => exact StepRes.noConfusion h
  next h2 =>
    split at h
    next => exact StepRes.noConfusion h
    next h3 =>
      split at h
      next => exact StepRes.noConfusion h
      next h4 =>
        split at h
        next => exact StepRes.noConfusion h
        next o2 heq =>
          split at h
          next h5 =>
            split at h
            next h6 =>
              injection h with ho hv
              subst ho
              exact ⟨heq, hv.symm, h6.1, h6.2⟩
            next h6 =>
              split at h
              next => exact StepRes.noConfusion h
              next => exact StepRes.noConfusion h
          next h5 => exact StepRes.noConfusion h

/-- Inversion of the no-value recording step: the option was found. -/
theorem scanStep_record1_inv (opts : List Opt) (toks : List String) (ae i : Nat)
    (o : Opt) (h : scanStep opts toks ae i = StepRes.record1 o) :
    opts.find? (optMatches (stripDashes (toks.getD i emptyS))) = some o := by
  simp only [scanStep] at h
  split at h
  next => exact StepRes.noConfusion h
  next h2 =>
    split at h
    next => exact StepRes.noConfusion h
    next h3 =>
      split at h
      next => exact StepRes.noConfusion h
      next h4 =>
        split at h
        next => exact StepRes.noConfusion h
        next o2 heq =>
          split at h
          next h5 =>
            split at h
            next h6 => exact StepRes.noConfusion h
            next h6 =>
              split at h
              next => exact StepRes.noConfusion h
              next =>
                injection h with ho
                subst ho
                exact heq
          next h5 =>
            injection h with ho
            subst ho
            exact heq

/-- A scan that returns through the help branch carries help = true. -/
theorem scanAux_help_true (opts : List Opt) (toks : List String) (ae : Nat) :
    ∀ f i st st2, scanAux opts toks ae f i st = ScanRes.helpExit st2 →
      st2.help = true := by
  intro f
  induction f with
  | zero =>
    intro i st st2 h
    simp only [scanAux] at h
    exact ScanRes.noConfusion h
  | succ f ih =>
    intro i st st2 h
    simp only [scanAux] at h
    by_cases hi : i < ae
    · rw [if_pos hi] at h
      cases hstep : scanStep opts toks ae i <;> simp only [hstep] at h
      · exact ih _ _ _ h
      · exact ih _ _ _ h
      · cases h
        rfl
      · exact ScanRes.noConfusion h
      · exact ih _ _ _ h
      · exact ih _ _ _ h
    · rw [if_neg hi] at h
      exact ScanRes.noConfusion h

/-- A scan that finishes the loop normally never changes the help flag. -/
theorem scanAux_done_help (opts : List Opt) (toks : List String) (ae : Nat) :
    ∀ f i st st2, scanAux opts toks ae f i st = ScanRes.done st2 →
      st2.help = st.help := by
  intro f
  induction f with
  | zero =>
    intro i st st2 h
    simp only [scanAux] at h
    cases h
    rfl
  | succ f ih =>
    intro i st st2 h
    simp only [scanAux] at h
    by_cases hi : i < ae
    · rw [if_pos hi] at h
      cases hstep : scanStep opts toks ae i <;> simp only [hstep] at h
      · exact ih _ _ _ h
      · exact (ih _ _ _ h).trans rfl
      · exact ScanRes.noConfusion h
      · exact ScanRes.noConfusion h
      · exact (ih _ _ _ h).trans rfl
      · exact (ih _ _ _ h).trans rfl
    · rw [if_neg hi] at h
      cases h
      rfl

/-- When the loop finishes normally with enough fuel, no position of
the still-unscanned range up to the boundary holds a help token: every
such position is either stepped on directly, where a help token would
have ended the scan early, or consumed as a value, which requires a
token without a leading dash. -/
theorem scanAux_done_noHelpToken (opts : List Opt) (toks : List String) (ae : Nat) :
    ∀ f i st st2, ae - i ≤ f → scanAux opts toks ae f i st = ScanRes.done st2 →
      ∀ j, i ≤ j → j < ae → isHelpToken (toks.getD j emptyS) = false := by
  intro f
  induction f with
  | zero =>
    intro i st st2 hf h j hij hj
    omega
  | succ f ih =>
    intro i st st2 hf h j hij hj
    have hi : i < ae := by omega
    simp only [scanAux] at h
    rw [if_pos hi] at h
    cases hstep : scanStep opts toks ae i <;> simp only [hstep] at h
    case skip =>
      rcases Nat.eq_or_lt_of_le hij with heq | hlt
      · exact heq ▸ isHelp_false_of_step_ne opts toks ae i _ hstep (fun hx => nomatch hx)
      · exact ih (i + 1) _ _ (by omega) h j (by omega) hj
    case pos t =>
      rcases Nat.eq_or_lt_of_le hij with heq | hlt
      · exact heq ▸ isHelp_false_of_step_ne opts toks ae i _ hstep (fun hx => nomatch hx)
      · exact ih (i + 1) _ _ (by omega) h j (by omega) hj
    case help => exact ScanRes.noConfusion h
    case fail m => exact ScanRes.noConfusion h
    case record1 o =>
      rcases Nat.eq_or_lt_of_le hij with heq | hlt
      · exact heq ▸ isHelp_false_of_step_ne opts toks ae i _ hstep (fun hx => nomatch hx)
      · exact ih (i + 1) _ _ (by omega) h j (by omega) hj
    case record2 o v =>
      rcases Nat.eq_or_lt_of_le hij with heq | hlt
      · exact heq ▸ isHelp_false_of_step_ne opts toks ae i _ hstep (fun hx => nomatch hx)
      · by_cases hj1 : j = i + 1
        · subst hj1
          exact isHelp_false_of_dashless _ (scanStep_record2_inv opts toks ae i o v hstep).2.2.2
        · exact ih (i + 2) _ _ (by omega) h j (by omega) hj

/-- A scan that returns through the help branch found a help token at
some position of the scanned range before the boundary. -/
theorem scanAux_helpExit_token (opts : List Opt) (toks : List String) (ae : Nat) :
    ∀ f i st st2, scanAux opts toks ae f i st = ScanRes.helpExit st2 →
      ∃ j, i ≤ j ∧ j < ae ∧ isHelpToken (toks.getD j emptyS) = true := by
  intro f
  induction f with
  | zero =>
    intro i st st2 h
    simp only [scanAux] at h
    exact ScanRes.noConfusion h
  | succ f ih =>
    intro i st st2 h
    simp only [scanAux] at h
    by_cases hi : i < ae
    · rw [if_pos hi] at h
      cases hstep : scanStep opts toks ae i <;> simp only [hstep] at h
      · obtain ⟨j, h1, h2, h3⟩ := ih _ _ _ h
        exact ⟨j, by omega, h2, h3⟩
      · obtain ⟨j, h1, h2, h3⟩ := ih _ _ _ h
        exact ⟨j, by omega, h2, h3⟩
      · exact ⟨i, Nat.le_refl i, hi, scanStep_help_isHelp opts toks ae i hstep⟩
      · exact ScanRes.noConfusion h
      · obtain ⟨j, h1, h2, h3⟩ := ih _ _ _ h
        exact ⟨j, by omega, h2, h3⟩
      · obtain ⟨j, h1, h2, h3⟩ := ih _ _ _ h
        exact ⟨j, by omega, h2, h3⟩
    · rw [if_neg hi] at h
      exact ScanRes.noConfusion h

/-- Sharing a name is symmetric: the shared name is nonempty on both
sides because it is the same string. -/
theorem sharesName_symm (o1 o2 : Opt) (h : sharesName o1 o2 = false) :
    sharesName o2 o1 = false := by
  simp only [sharesName, decide_eq_false_iff_not] at h ⊢
  intro hc
  apply h
  rcases hc with ⟨hne, hor⟩ | ⟨hne, hor⟩
  · rcases hor with he | he
    · exact Or.inl ⟨he ▸ hne, Or.inl he.symm⟩
    · exact Or.inr ⟨he ▸ hne, Or.inl he.symm⟩
  · rcases hor with he | he
    · exact Or.inl ⟨he ▸ hne, Or.inr he.symm⟩
    · exact Or.inr ⟨he ▸ hne, Or.inr he.symm⟩

/-- Any two distinct members of a name-disjoint option list share no
name. -/
theorem namesDisjoint_spec :
    ∀ (opts : List Opt), namesDisjoint opts = true →
      ∀ o1, o1 ∈ opts → ∀ o2, o2 ∈ opts → o1 ≠ o2 → sharesName o1 o2 = false := by
  intro opts
  induction opts with
  | nil =>
    intro _ o1 h1
    exact absurd h1 (List.not_mem_nil o1)
  | cons a rest ih =>
    intro hd o1 h1 o2 h2 hne
    simp only [namesDisjoint, Bool.and_eq_true, List.all_eq_true] at hd
    obtain ⟨hall, hrest⟩ := hd
    rcases List.mem_cons.mp h1 with rfl | h1r
    · rcases List.mem_cons.mp h2 with rfl | h2r
      · exact absurd rfl hne
      · have := hall o2 h2r
        simpa using this
    · rcases List.mem_cons.mp h2 with rfl | h2r
      · exact sharesName_symm _ _ (by simpa using hall o1 h1r)
      · exact ih hrest o1 h1r o2 h2r hne

/-- Recording a value for a member option preserves the alignment of
short and long keys, provided the option list is name-disjoint. -/
theorem insertBoth_aligned (opts : List Opt) (st : Args) (o2 : Opt) (v : String)
    (hd : namesDisjoint opts = true) (h2 : o2 ∈ opts)
    (ha : KeysAligned opts st.parsed) :
    KeysAligned opts (insertBoth st o2 v).parsed := by
  intro o ho hs hl
  by_cases heq : o = o2
  · subst heq
    simp only [insertBoth, if_neg hs, if_neg hl]
    by_cases hsl : o.short = o.long
    · rw [hsl]
    · rw [mapFind_insert_ne _ _ _ _ (fun he => hsl he), mapFind_insert_self,
        mapFind_insert_self, mapFind_insert_ne _ _ _ _ (fun he => hsl he.symm),
        ha o ho hs hl]
  · have hshare : sharesName o2 o = false :=
      namesDisjoint_spec opts hd o2 h2 o ho (fun he => heq he.symm)
    simp only [sharesName, decide_eq_false_iff_not] at hshare
    push_neg at hshare
    simp only [insertBoth]
    by_cases hs2 : o2.short = emptyS <;> by_cases hl2 : o2.long = emptyS
    · rw [if_pos hs2, if_pos hl2]
      exact ha o ho hs hl
    · rw [if_pos hs2, if_neg hl2]
      have hd2 := hshare.2 hl2
      rw [mapFind_insert_ne _ _ _ _ (fun he => hd2.1 he.symm),
        mapFind_insert_ne _ _ _ _ (fun he => hd2.2 he.symm)]
      exact ha o ho hs hl
    · rw [if_neg hs2, if_pos hl2]
      have hd1 := hshare.1 hs2
      rw [mapFind_insert_ne _ _ _ _ (fun he => hd1.1 he.symm),
        mapFind_insert_ne _ _ _ _ (fun he => hd1.2 he.symm)]
      exact ha o ho hs hl
    · rw [if_neg hs2, if_neg hl2]
      have hd1 := hshare.1 hs2
      have hd2 := hshare.2 hl2
      rw [mapFind_insert_ne _ _ _ _ (fun he => hd2.1 he.symm),
        mapFind_insert_ne _ _ _ _ (fun he => hd1.1 he.symm),
        mapFind_insert_ne _ _ _ _ (fun he => hd2.2 he.symm),
        mapFind_insert_ne _ _ _ _ (fun he => hd1.2 he.symm)]
      exact ha o ho hs hl

/-- The scan preserves the alignment of short and long keys on both
normal completion and the early help return. -/
theorem scanAux_aligned (opts : List Opt) (toks : List String) (ae : Nat)
    (hd : namesDisjoint opts = true) :
    ∀ f i st st2, KeysAligned opts st.parsed →
      (scanAux opts toks ae f i st = ScanRes.done st2 ∨
       scanAux opts toks ae f i st = ScanRes.helpExit st2) →
      KeysAligned opts st2.parsed := by
  intro f
  induction f with
  | zero =>
    intro i st st2 hal h
    simp only [scanAux] at h
    rcases h with h | h
    · cases h
      exact hal
    · exact ScanRes.noConfusion h
  | succ f ih =>
    intro i st st2 hal h
    simp only [scanAux] at h
    by_cases hi : i < ae
    · rw [if_pos hi] at h
      cases hstep : scanStep opts toks ae i <;> simp only [hstep] at h
      · exact ih _ _ _ hal h
      · rename_i t
        exact ih (i + 1) ⟨st.help, st.parsed, st.unparsed ++ [t]⟩ st2 hal h
      · rcases h with h | h
        · exact ScanRes.noConfusion h
        · cases h
          exact hal
      · rcases h with h | h <;> exact ScanRes.noConfusion h
      · rename_i o
        have ho : o ∈ opts :=
          List.mem_of_find?_eq_some (scanStep_record1_inv opts toks ae i o hstep)
        exact ih _ _ _ (insertBoth_aligned opts st o emptyS hd ho hal) h
      · rename_i o v
        have ho : o ∈ opts :=
          List.mem_of_find?_eq_some
            (scanStep_record2_inv opts toks ae i o v hstep).1
        exact ih _ _ _ (insertBoth_aligned opts st o v hd ho hal) h
    · rw [if_neg hi] at h
      rcases h with h | h
      · cases h
        exact hal
      · exact ScanRes.noConfusion h

/-- C1, counterexample: with tokens -h, --, x the help token is
detected before the sentinel and parse returns successfully, but the
token x after the sentinel is missing from the positional list: the
early return of line 315 skips the trailing append of line 358. -/
theorem C1_cex :
    parse [] (["-h", "--", "x"]) = PResult.ok ⟨true, [], []⟩ ∧
    ¬ (("x") ∈ (Args.mk true [] []).unparsed) := by decide

/-- C1, amended: for every token list containing the sentinel and
every successful parse in which no help token was detected, every
token after the first sentinel appears at the end of the positional
list, verbatim and in original order; when help is detected the parse
returns at once and the trailing append does not run. -/
theorem C1_trailing (opts : List Opt) (toks : List String) (a : Args)
    (hs : ("--") ∈ toks) (h : parse opts toks = PResult.ok a)
    (hh : a.help = false) :
    ∃ pre, a.unparsed = pre ++ toks.drop (aeIdx toks + 1) := by
  simp only [parse] at h
  cases hscan : scanAux opts toks (aeIdx toks) (aeIdx toks) 0 initArgs <;>
    simp only [hscan] at h
  · rename_i st
    cases hreq : requiredCheck opts st.parsed <;> simp only [hreq] at h
    · split at h
      · cases h
        exact ⟨st.unparsed, rfl⟩
      · exact PResult.noConfusion h
    · exact PResult.noConfusion h
  · rename_i st
    cases h
    have := scanAux_help_true opts toks (aeIdx toks) _ _ _ _ hscan
    rw [this] at hh
    exact absurd hh (by decide)
  · exact PResult.noConfusion h

/-- C1 witness: tokens a, --, b with no options parse successfully
without help, and the positional list ends with the token after the
sentinel. -/
theorem C1_witness :
    ∃ pre, (Args.mk false [] (["a", "b"])).unparsed =
      pre ++ (["a", "--", "b"].drop (aeIdx (["a", "--", "b"]) + 1)) :=
  C1_trailing [] (["a", "--", "b"]) (Args.mk false [] (["a", "b"]))
    (by decide) (by decide) rfl

/-- C2, counterexample: looking up a key absent from the parsed map,
the operator[] of the source dereferences the end iterator returned by
find, modelled as Option.none, and raises no condition at all; the
strict lookup described by the specification would instead fail with a
no-value message naming the key. -/
theorem C2_cex :
    argsValue (Args.mk false [] []) ("x") = Option.none ∧
    valueStrictSpec (Args.mk false [] []) ("x") =
      Except.error ("no value for " ++ sq ++ "x" ++ sq) :=
  ⟨rfl, rfl⟩

/-- C2, amended: when exists reports a key present, operator[]
returns the stored value; when exists reports it absent, the find
inside operator[] yields the end iterator and so no value at all, and
no no-value condition is raised on that path. -/
theorem C2_lookup (a : Args) (k : String) :
    (argsExists a k = true → ∃ v, argsValue a k = some v) ∧
    (argsExists a k = false → argsValue a k = Option.none) := by
  constructor
  · intro h
    have h2 : countKey a.parsed k ≠ 0 := by
      simpa [argsExists, bne_iff_ne] using h
    exact Option.isSome_iff_exists.mp ((countKey_ne_zero_iff a.parsed k).mp h2)
  · intro h
    have h0 : countKey a.parsed k = 0 := by
      simpa [argsExists, bne_eq_false_iff_eq] using h
    have h3 : ¬ (mapFind a.parsed k).isSome = true :=
      fun hx => ((countKey_ne_zero_iff a.parsed k).mpr hx) h0
    exact Option.not_isSome_iff_eq_none.mp h3

/-- C2 witness: with one stored pair, looking up an absent key yields
no value and no condition. -/
theorem C2_witness :
    argsValue (Args.mk false [("a", "1")] []) ("x") = Option.none :=
  (C2_lookup (Args.mk false [("a", "1")] []) ("x")).2 (by decide)

/-- C3: evaluation of parse at a token list without any sentinel.
The scan finishes, the required-option validation passes, and then
line 358 builds the iterator range from argv+argc+1 to argv+argc,
whose first iterator lies one past the last: an invalid range, hence
undefined behaviour instead of the normal return the claim states. -/
theorem C3_ub : parse [] (["a"]) = PResult.ub := by decide

/-- C4, counterexample: the empty specifier makes the option
constructor read name[1] out of bounds, so construction is not a
defined success there. -/
theorem C4_cex : mkNames emptyS = Option.none := rfl

/-- C4, amended: for every nonempty specifier, construction succeeds
with the names given by the stated rule: a one-character specifier is
short-only, a longer specifier with a separator at position 1 splits
into short and long, any other longer specifier is long-only; and an
option whose long name is empty can only match through its short
name, since scan candidates are nonempty.  The empty specifier is the
single failing case: it reads out of bounds. -/
theorem C4_names (name : String) (h : name ≠ emptyS) :
    (mkNames name).isSome = true ∧
    (name.length = 1 → mkNames name = some (name, emptyS)) ∧
    (1 < name.length → name.data.get? 1 = some ',' →
      mkNames name = some (name.take 1, name.drop 2)) ∧
    (1 < name.length → name.data.get? 1 ≠ some ',' →
      mkNames name = some (emptyS, name)) ∧
    (∀ sh af fl s, s ≠ emptyS →
      optMatches s (Opt.mk sh emptyS af fl) = (s == sh)) := by
  have hdata : name.data.length = name.length := rfl
  have hlen0 : name.length ≠ 0 := by
    intro h0
    apply h
    cases name with
    | mk data =>
      cases data with
      | nil => rfl
      | cons c cs => simp [String.length] at h0
  have hmatch : ∀ sh af fl s, s ≠ emptyS →
      optMatches s (Opt.mk sh emptyS af fl) = (s == sh) := by
    intro sh af fl s hs
    simp only [optMatches]
    rw [beq_eq_false_iff_ne.mpr hs, Bool.or_false]
  by_cases h1 : name.length = 1
  · refine ⟨?_, ?_, ?_, ?_, hmatch⟩
    · simp [mkNames, h1]
    · intro _
      simp only [mkNames, if_pos h1]
    · intro h2 _
      omega
    · intro h2 _
      omega
  · have h2 : 1 < name.length := by omega
    obtain ⟨c, hc⟩ : ∃ c, name.data.get? 1 = some c := by
      cases hg : name.data.get? 1 with
      | none =>
        have := List.get?_eq_none.mp hg
        omega
      | some c => exact ⟨c, rfl⟩
    by_cases hcc : c = ','
    · subst hcc
      refine ⟨?_, ?_, ?_, ?_, hmatch⟩
      · simp only [mkNames, if_neg h1, hc]
        simp
      · intro hx
        exact absurd hx h1
      · intro _ _
        simp only [mkNames, if_neg h1, hc]
        simp
      · intro _ hx
        exact absurd hc hx
    · refine ⟨?_, ?_, ?_, ?_, hmatch⟩
      · simp only [mkNames, if_neg h1, hc]
        rw [if_neg hcc]
        rfl
      · intro hx
        exact absurd hx h1
      · intro _ hx
        rw [hc] at hx
        injection hx with hx2
        exact absurd hx2 hcc
      · intro _ _
        simp only [mkNames, if_neg h1, hc]
        rw [if_neg hcc]

/-- C4 witness: the specifier p comma port succeeds and splits. -/
theorem C4_witness : (mkNames ("p,port")).isSome = true :=
  (C4_names ("p,port") (by decide)).1

/-- C5, counterexample: the token --h is neither -h nor --help, yet
parse returns with the help flag set, because line 313 strips the
dashes before comparing the candidate with h. -/
theorem C5_cex :
    parse [] (["--h"]) = PResult.ok ⟨true, [], []⟩ ∧
    ("--h" ≠ "-h") ∧ ("--h" ≠ "--help") := by decide

/-- C5, amended: in every successful parse the help flag is true
exactly when some token before the boundary is a help token: longer
than one character, starting with a dash, whose candidate after
stripping one leading dash, or two when the second byte is a dash,
equals h or help.  In particular --h and -help also set the flag. -/
theorem C5_helpIff (opts : List Opt) (toks : List String) (a : Args)
    (h : parse opts toks = PResult.ok a) :
    a.help = true ↔
      ∃ i, i < aeIdx toks ∧ isHelpToken (toks.getD i emptyS) = true := by
  simp only [parse] at h
  cases hscan : scanAux opts toks (aeIdx toks) (aeIdx toks) 0 initArgs <;>
    simp only [hscan] at h
  · rename_i st
    cases hreq : requiredCheck opts st.parsed <;> simp only [hreq] at h
    · split at h
      · cases h
        have hhelp : st.help = initArgs.help :=
          scanAux_done_help opts toks (aeIdx toks) _ _ _ _ hscan
        constructor
        · intro hx
          rw [hhelp] at hx
          exact absurd hx (by decide)
        · rintro ⟨j, hj, htok⟩
          have hno := scanAux_done_noHelpToken opts toks (aeIdx toks)
            (aeIdx toks) 0 initArgs st (by omega) hscan j (Nat.zero_le j) hj
          rw [hno] at htok
          exact absurd htok (by decide)
      · exact PResult.noConfusion h
    · exact PResult.noConfusion h
  · rename_i st
    cases h
    constructor
    · intro _
      obtain ⟨j, h1, h2, h3⟩ :=
        scanAux_helpExit_token opts toks (aeIdx toks) _ _ _ _ hscan
      exact ⟨j, h2, h3⟩
    · intro _
      exact scanAux_help_true opts toks (aeIdx toks) _ _ _ _ hscan
  · exact PResult.noConfusion h

/-- C5 witness: the single token -h yields a successful parse with
help set, and the equivalence produces the helping position. -/
theorem C5_witness :
    ∃ i, i < aeIdx (["-h"]) ∧ isHelpToken ((["-h"]).getD i emptyS) = true :=
  (C5_helpIff [] (["-h"]) (Args.mk true [] []) (by decide)).mp rfl

/-- C6, counterexample: a pre-boundary empty token appears in the
positional list of a successful parse, because the test of line 304
compares the argument pointer with null, which never holds for an
empty string, and line 307 then pushes the token; and with a
required-value option p, the input -p, empty token, sentinel parses
successfully storing the empty token as the value of p, while the
same input without the empty token fails: the empty token was
consumed as a value.  Both effects refute the claim that an empty
token is skipped with no effect. -/
theorem C6_cex :
    parse [] (["", "--"]) = PResult.ok ⟨false, [], [""]⟩ ∧
    parse [⟨"p", emptyS, AFlag.arequired, false⟩] (["-p", "", "--"]) =
      PResult.ok ⟨false, [("p", "")], []⟩ ∧
    parse [⟨"p", emptyS, AFlag.arequired, false⟩] (["-p", "--"]) =
      PResult.perr (requiresMsg ("p")) := by decide

/-- C6, amended: a pre-boundary empty token is never matched as an
option, but it is not skipped with no effect: when the scan loop
examines it, the token is appended to the positional list, since the
nullity test of line 304 does not fire for an empty string and the
first byte of the token is the NUL terminator rather than a dash; and
an empty token in the lookahead position of a matched option taking a
required or optional value is consumed and stored as that value. -/
theorem C6_emptyToken (opts : List Opt) (toks : List String) (ae i f : Nat)
    (st : Args) (s : String) (o : Opt) :
    (toks.getD i emptyS = emptyS →
      scanStep opts toks ae i = StepRes.pos emptyS ∧
      (i < ae →
        scanAux opts toks ae (f + 1) i st =
          scanAux opts toks ae f (i + 1)
            ⟨st.help, st.parsed, st.unparsed ++ [emptyS]⟩)) ∧
    (candidateAt toks i = some s → ¬ (s = "h" ∨ s = "help") →
      opts.find? (optMatches s) = some o →
      o.aflags = AFlag.arequired ∨ o.aflags = AFlag.aoptional →
      i + 1 < ae → toks.getD (i + 1) emptyS = emptyS →
      scanStep opts toks ae i = StepRes.record2 o emptyS) := by
  constructor
  · intro he
    have hstep : scanStep opts toks ae i = StepRes.pos emptyS := by
      simp only [scanStep, he]
      rw [if_pos (show firstChar emptyS ≠ some '-' by decide)]
    refine ⟨hstep, fun hi => ?_⟩
    simp only [scanAux]
    rw [if_pos hi, hstep]
  · intro hc hnh hf ha hlt he2
    simp only [candidateAt] at hc
    split at hc
    next hcond =>
      injection hc with hs2
      obtain ⟨-, h2, h3⟩ := hcond
      simp only [scanStep, hs2]
      rw [if_neg (not_not_intro h2), if_neg h3, if_neg hnh]
      simp only [hf]
      rw [if_pos ha,
        if_pos ⟨hlt, by rw [he2]; intro hx; exact Option.noConfusion hx⟩, he2]
    next hcond => exact Option.noConfusion hc

/-- C6 witness: at index 0 the empty token is appended to the
positional list; at index 1 the option p is matched and the empty
token at index 2 is consumed as its value. -/
theorem C6_witness :
    scanStep [⟨"p", emptyS, AFlag.arequired, false⟩] (["", "-p", "", "--"]) 3 0 =
      StepRes.pos emptyS ∧
    scanStep [⟨"p", emptyS, AFlag.arequired, false⟩] (["", "-p", "", "--"]) 3 1 =
      StepRes.record2 ⟨"p", emptyS, AFlag.arequired, false⟩ emptyS :=
  ⟨((C6_emptyToken [⟨"p", emptyS, AFlag.arequired, false⟩] (["", "-p", "", "--"])
      3 0 0 initArgs ("p") ⟨"p", emptyS, AFlag.arequired, false⟩).1 (by decide)).1,
   (C6_emptyToken [⟨"p", emptyS, AFlag.arequired, false⟩] (["", "-p", "", "--"])
      3 1 0 initArgs ("p") ⟨"p", emptyS, AFlag.arequired, false⟩).2
     (by decide) (by decide) (by decide) (Or.inl rfl) (by decide) (by decide)⟩

/-- C7, confirmed: a matched option with required argument flags
consumes the lookahead token as its stored value exactly when that
token lies strictly before the boundary, which also means it exists,
and its first byte is not a dash; otherwise the step, and with it the
parse, fails with the requires-a-value message naming the candidate
as typed.  An error result of the scan makes parse fail with that
message. -/
theorem C7_required (opts : List Opt) (toks : List String) (ae i : Nat)
    (s : String) (o : Opt)
    (hc : candidateAt toks i = some s)
    (hnh : ¬ (s = "h" ∨ s = "help"))
    (hf : opts.find? (optMatches s) = some o)
    (ha : o.aflags = AFlag.arequired) :
    ((i + 1 < ae ∧ firstChar (toks.getD (i + 1) emptyS) ≠ some '-') →
      scanStep opts toks ae i = StepRes.record2 o (toks.getD (i + 1) emptyS)) ∧
    (¬ (i + 1 < ae ∧ firstChar (toks.getD (i + 1) emptyS) ≠ some '-') →
      scanStep opts toks ae i = StepRes.fail (requiresMsg s)) ∧
    (∀ f st, i < ae →
      (i + 1 < ae ∧ firstChar (toks.getD (i + 1) emptyS) ≠ some '-') →
      scanAux opts toks ae (f + 1) i st =
        scanAux opts toks ae f (i + 2) (insertBoth st o (toks.getD (i + 1) emptyS))) ∧
    (∀ f st, i < ae →
      ¬ (i + 1 < ae ∧ firstChar (toks.getD (i + 1) emptyS) ≠ some '-') →
      scanAux opts toks ae (f + 1) i st = ScanRes.err (requiresMsg s)) ∧
    (∀ m, scanAux opts toks (aeIdx toks) (aeIdx toks) 0 initArgs = ScanRes.err m →
      parse opts toks = PResult.perr m) := by
  simp only [candidateAt] at hc
  split at hc
  next hcond =>
    injection hc with hs2
    obtain ⟨-, h2, h3⟩ := hcond
    have hcons : (i + 1 < ae ∧ firstChar (toks.getD (i + 1) emptyS) ≠ some '-') →
        scanStep opts toks ae i = StepRes.record2 o (toks.getD (i + 1) emptyS) := by
      intro hx
      simp only [scanStep, hs2]
      rw [if_neg (not_not_intro h2), if_neg h3, if_neg hnh]
      simp only [hf]
      rw [if_pos (Or.inl ha), if_pos hx]
    have hfail : ¬ (i + 1 < ae ∧ firstChar (toks.getD (i + 1) emptyS) ≠ some '-') →
        scanStep opts toks ae i = StepRes.fail (requiresMsg s) := by
      intro hx
      simp only [scanStep, hs2]
      rw [if_neg (not_not_intro h2), if_neg h3, if_neg hnh]
      simp only [hf]
      rw [if_pos (Or.inl ha), if_neg hx, if_pos ha]
    refine ⟨hcons, hfail, ?_, ?_, ?_⟩
    · intro f st hi hx
      simp only [scanAux]
      rw [if_pos hi, hcons hx]
    · intro f st hi hx
      simp only [scanAux]
      rw [if_pos hi, hfail hx]
    · intro m hm
      simp only [parse, hm]
  next hcond => exact Option.noConfusion hc

/-- C7 witness: option p with a required value, tokens -p, 8080,
sentinel: the step at index 0 consumes 8080 as the value of p. -/
theorem C7_witness :
    scanStep [⟨"p", "port", AFlag.arequired, false⟩] (["-p", "8080", "--"]) 2 0 =
      StepRes.record2 ⟨"p", "port", AFlag.arequired, false⟩ ("8080") :=
  (C7_required [⟨"p", "port", AFlag.arequired, false⟩] (["-p", "8080", "--"])
    2 0 ("p") ⟨"p", "port", AFlag.arequired, false⟩
    (by decide) (by decide) (by decide) rfl).1 (by decide)

/-- C8, confirmed: whenever the scan returns through the help branch,
parse returns that result successfully with help set; the
required-option validation is skipped entirely, so no required error
can be raised even when required options were never supplied. -/
theorem C8_helpShortCircuit (opts : List Opt) (toks : List String) (st : Args)
    (h : scanAux opts toks (aeIdx toks) (aeIdx toks) 0 initArgs =
      ScanRes.helpExit st) :
    parse opts toks = PResult.ok st ∧ st.help = true ∧
    ∀ m, parse opts toks ≠ PResult.perr m := by
  have hp : parse opts toks = PResult.ok st := by
    simp only [parse, h]
  refine ⟨hp, scanAux_help_true opts toks (aeIdx toks) _ _ _ _ h, ?_⟩
  intro m hm
  rw [hp] at hm
  exact PResult.noConfusion hm

/-- C8 witness: the option port is required on the command line and
never supplied, yet the single token -h parses successfully with help
set and no required error. -/
theorem C8_witness :
    parse [⟨"p", "port", AFlag.arequired, true⟩] (["-h"]) =
      PResult.ok ⟨true, [], []⟩ :=
  (C8_helpShortCircuit [⟨"p", "port", AFlag.arequired, true⟩] (["-h"])
    ⟨true, [], []⟩ (by decide)).1

/-- C9, counterexample: two options sharing the short name v.  The
token -v matches the first option and inserts v with an empty value;
the token --verbose matches the second option, whose insert under v is
a no-op because insert never overwrites, so the alias keys v and
verbose of the second option end up holding different values. -/
theorem C9_cex :
    parse [⟨"v", emptyS, AFlag.anone, false⟩, ⟨"v", "verbose", AFlag.arequired, false⟩]
      (["-v", "--verbose", "x", "--"]) =
      PResult.ok ⟨false, [("v", ""), ("verbose", "x")], []⟩ ∧
    mapFind [("v", ""), ("verbose", "x")] ("v") ≠
      mapFind [("v", ""), ("verbose", "x")] ("verbose") := by decide

/-- C9, amended: provided no two distinct options of the list share a
nonempty name, every option defined with both a short and a long name
holds identical stored values under the two keys in every successful
parse result: each match inserts the same resolved value under both
names, and no other option can disturb those keys. -/
theorem C9_alias (opts : List Opt) (toks : List String) (a : Args) (o : Opt)
    (hd : namesDisjoint opts = true) (ho : o ∈ opts)
    (hs : o.short ≠ emptyS) (hl : o.long ≠ emptyS)
    (h : parse opts toks = PResult.ok a) :
    mapFind a.parsed o.short = mapFind a.parsed o.long := by
  have hinit : KeysAligned opts initArgs.parsed := fun _ _ _ _ => rfl
  simp only [parse] at h
  cases hscan : scanAux opts toks (aeIdx toks) (aeIdx toks) 0 initArgs <;>
    simp only [hscan] at h
  · rename_i st
    cases hreq : requiredCheck opts st.parsed <;> simp only [hreq] at h
    · split at h
      · cases h
        exact scanAux_aligned opts toks (aeIdx toks) hd _ _ _ _ hinit
          (Or.inl hscan) o ho hs hl
      · exact PResult.noConfusion h
    · exact PResult.noConfusion h
  · rename_i st
    cases h
    exact scanAux_aligned opts toks (aeIdx toks) hd _ _ _ _ hinit
      (Or.inr hscan) o ho hs hl
  · exact PResult.noConfusion h

/-- C9 witness: the lone option p, port with a required value parses
-p, 8080, sentinel into identical values under both keys. -/
theorem C9_witness :
    mapFind (Args.mk false [("p", "8080"), ("port", "8080")] []).parsed ("p") =
      mapFind (Args.mk false [("p", "8080"), ("port", "8080")] []).parsed ("port") :=
  C9_alias [⟨"p", "port", AFlag.arequired, false⟩] (["-p", "8080", "--"])
    (Args.mk false [("p", "8080"), ("port", "8080")] [])
    ⟨"p", "port", AFlag.arequired, false⟩
    (by decide) (by decide) (by decide) (by decide) (by decide)

/-- C10, confirmed: a matched option with optional argument flags
consumes the lookahead token as its stored value exactly when that
token lies strictly before the boundary and its first byte is not a
dash; otherwise the stored value is empty and the scan resumes at the
very next token, which is therefore processed as a token in its own
right. -/
theorem C10_optional (opts : List Opt) (toks : List String) (ae i : Nat)
    (s : String) (o : Opt)
    (hc : candidateAt toks i = some s)
    (hnh : ¬ (s = "h" ∨ s = "help"))
    (hf : opts.find? (optMatches s) = some o)
    (ha : o.aflags = AFlag.aoptional) :
    ((i + 1 < ae ∧ firstChar (toks.getD (i + 1) emptyS) ≠ some '-') →
      scanStep opts toks ae i = StepRes.record2 o (toks.getD (i + 1) emptyS)) ∧
    (¬ (i + 1 < ae ∧ firstChar (toks.getD (i + 1) emptyS) ≠ some '-') →
      scanStep opts toks ae i = StepRes.record1 o ∧
      ∀ f st, i < ae →
        scanAux opts toks ae (f + 1) i st =
          scanAux opts toks ae f (i + 1) (insertBoth st o emptyS)) := by
  simp only [candidateAt] at hc
  split at hc
  next hcond =>
    injection hc with hs2
    obtain ⟨-, h2, h3⟩ := hcond
    constructor
    · intro hx
      simp only [scanStep, hs2]
      rw [if_neg (not_not_intro h2), if_neg h3, if_neg hnh]
      simp only [hf]
      rw [if_pos (Or.inr ha), if_pos hx]
    · intro hx
      have hstep : scanStep opts toks ae i = StepRes.record1 o := by
        simp only [scanStep, hs2]
        rw [if_neg (not_not_intro h2), if_neg h3, if_neg hnh]
        simp only [hf]
        rw [if_pos (Or.inr ha), if_neg hx,
          if_neg (by rw [ha]; intro hz; exact AFlag.noConfusion hz)]
      refine ⟨hstep, fun f st hi => ?_⟩
      simp only [scanAux]
      rw [if_pos hi, hstep]
  next hcond => exact Option.noConfusion hc

/-- C10 witness: option v, verbose with an optional value and tokens
-v, -z: the lookahead starts with a dash, so the value of v stays
empty and -z is scanned itself, failing as an unknown option, which
also shows the full parse outcome on this input. -/
theorem C10_witness :
    scanStep [⟨"v", "verbose", AFlag.aoptional, false⟩] (["-v", "-z"]) 2 0 =
      StepRes.record1 ⟨"v", "verbose", AFlag.aoptional, false⟩ ∧
    parse [⟨"v", "verbose", AFlag.aoptional, false⟩] (["-v", "-z"]) =
      PResult.perr (unknownMsg ("z")) :=
  ⟨((C10_optional [⟨"v", "verbose", AFlag.aoptional, false⟩] (["-v", "-z"])
      2 0 ("v") ⟨"v", "verbose", AFlag.aoptional, false⟩
      (by decide) (by decide) (by decide) rfl).2 (by decide)).1,
   by decide⟩

end Getoptxx
